import Mathlib

/-!
Verification development for the AWSUtilities caption-conversion scripts
(createSRTfromTranscriptionFile.py, createVTTfromTranscriptionFile.py,
createSSMLfromTranscriptionFile.py, createSSMLfromSRT.py).

Conventions of the shallow embedding:
* Python floats are modelled as exact rationals (`ℚ`) wherever the
  computation is exact-real in intent; a separate binary64 model (`fl`,
  `getTimeCodeFloat`) captures IEEE-754 double rounding where a claim
  hinges on it.
* Python `int()` truncation is `pyint`, Python `x % 1` is `pymod1`
  (floor semantics, as for Python's `%` on floats).
* Fallible operations (`datetime.strptime`, list indexing) return
  `Option`; `none` corresponds to the script raising and aborting.
* Strings are Lean `String`s; `"%02d"`-style zero padding is rendered
  by `pad0` (all padded values in this program are nonnegative).
-/

/-- The character for a decimal digit value (values 0–9; used to render
and to reason about decimal numerals). -/
def digChar : Nat → Char
  | 0 => '0' | 1 => '1' | 2 => '2' | 3 => '3' | 4 => '4'
  | 5 => '5' | 6 => '6' | 7 => '7' | 8 => '8' | 9 => '9'
  | _ => '*'

/-- Numeric value of a decimal digit character. -/
def digVal (c : Char) : Nat := c.toNat - 48

/-- Fuel-driven decimal rendering of a natural number (most significant
digit first); fuel `n + 1` suffices for `n`. -/
def natReprAux : Nat → Nat → List Char
  | 0, _ => []
  | _ + 1, 0 => []
  | fuel + 1, n => natReprAux fuel (n / 10) ++ [digChar (n % 10)]

/-- Decimal rendering of a natural number, as `str` / `%d` would print it. -/
def natRepr (n : Nat) : List Char :=
  if n = 0 then ['0'] else natReprAux (n + 1) n

/-- Zero-pad a natural number's decimal rendering to a minimum width. -/
def padNat (w : Nat) (n : Nat) : List Char :=
  let s := natRepr n
  List.replicate (w - s.length) '0' ++ s

/-- `"%0wd" % n` for an integer: zero padding after the sign, as printf
does.  Every value padded in this program is nonnegative. -/
def pad0 (w : Nat) (n : Int) : String :=
  if n < 0 then ⟨'-' :: padNat (w - 1) n.natAbs⟩ else ⟨padNat w n.toNat⟩

/-- Python `str(x)` for the nonnegative cue counter. -/
def pyStr (n : Nat) : String := ⟨natRepr n⟩

/-- Python `int()` on a real value: truncation toward zero. -/
def pyint (q : ℚ) : Int := if 0 ≤ q then ⌊q⌋ else ⌈q⌉

/-- Python `x % 1` on a real value (Python's `%` uses floor semantics). -/
def pymod1 (q : ℚ) : ℚ := q - ⌊q⌋

/-- Round to the nearest integer, ties to even (the rounding printf
applies when formatting). -/
def rhe (q : ℚ) : Int :=
  if q - ⌊q⌋ < 1/2 then ⌊q⌋
  else if 1/2 < q - ⌊q⌋ then ⌊q⌋ + 1
  else if ⌊q⌋ % 2 = 0 then ⌊q⌋ else ⌊q⌋ + 1

/-- Decimal rendering of an integer number of hundredths as a two-decimal
fixed-point string. -/
def fmt2Int (n : Int) : String :=
  (if n < 0 then "-" else "") ++ ⟨natRepr (n.natAbs / 100)⟩ ++ "." ++ ⟨padNat 2 (n.natAbs % 100)⟩

/-- `"%3.2f" % q`: two decimal places, rounded.  The minimum width 3 never
forces padding because the result always has at least four characters. -/
def fmt2 (q : ℚ) : String := fmt2Int (rhe (q * 100))

/-!  TimeCodec: `getTimeCode` from createSRTfromTranscriptionFile.py /
createSSMLfromTranscriptionFile.py (comma) and
createVTTfromTranscriptionFile.py (dot), in exact-real semantics. -/

/-- `getTimeCode(seconds)` with a parametrised millisecond separator:
```
t_hund   = int(seconds % 1 * 1000)
t_seconds = int(seconds)
t_secs   = ((float(t_seconds) / 60) % 1) * 60
t_mins   = int(t_seconds / 60)
"%02d:%02d:%02d,%03d" % (00, t_mins, int(t_secs), t_hund)
```
modelled over exact rationals. -/
def getTimeCodeSep (sep : Char) (seconds : ℚ) : String :=
  let t_hund := pyint (pymod1 seconds * 1000)
  let t_seconds := pyint seconds
  let t_secs := pymod1 ((t_seconds : ℚ) / 60) * 60
  let t_mins := pyint ((t_seconds : ℚ) / 60)
  pad0 2 0 ++ ":" ++ pad0 2 t_mins ++ ":" ++ pad0 2 (pyint t_secs) ++ ⟨[sep]⟩ ++ pad0 3 t_hund

/-- The SRT-style formatter (comma separator). -/
def getTimeCode (seconds : ℚ) : String := getTimeCodeSep ',' seconds

/-- The VTT-style formatter (dot separator), from
createVTTfromTranscriptionFile.py. -/
def getTimeCodeVTT (seconds : ℚ) : String := getTimeCodeSep '.' seconds

/-- Modelled from the spec's words (§4.1), for comparison with the code:
hour field constant `00`, minutes `= ⌊seconds / 60⌋` not wrapped into
hours, integer seconds-within-minute, milliseconds `= ⌊fraction × 1000⌋`,
fields zero-padded to widths 2/2/2/3. -/
def specTimeCode (sep : Char) (seconds : ℚ) : String :=
  ⟨padNat 2 0⟩ ++ ":" ++ ⟨padNat 2 ⌊seconds / 60⌋.toNat⟩ ++ ":" ++
    ⟨padNat 2 (⌊seconds⌋.toNat % 60)⟩ ++ ⟨[sep]⟩ ++
    ⟨padNat 3 ⌊(seconds - ⌊seconds⌋) * 1000⌋.toNat⟩

/-!  Time-code parsing: `datetime.strptime(text, '%H:%M:%S,%f')` followed by
`microsecond/1000000 + second + minute*60 + hour*3600`
(createSSMLfromSRT.py lines 107–113, createSSMLfromTranscriptionFile.py
lines 162–168). -/

/-- Greedily consume up to `fuel` leading decimal digits, returning the
accumulated value, the number of digits consumed and the rest.  This is
how `strptime` matches `%H`/`%M`/`%S` (one or two digits) and `%f`
(one to six digits). -/
def takeDigitsAux : Nat → Nat → Nat → List Char → Nat × Nat × List Char
  | 0, acc, cnt, cs => (acc, cnt, cs)
  | _ + 1, acc, cnt, [] => (acc, cnt, [])
  | fuel + 1, acc, cnt, c :: cs =>
    if c.isDigit then takeDigitsAux fuel (10 * acc + digVal c) (cnt + 1) cs
    else (acc, cnt, c :: cs)

/-- Require one literal character (a `:` or `,` of the format string). -/
def expectChar (c : Char) : List Char → Option (List Char)
  | [] => none
  | d :: cs => if d = c then some cs else none

/-- `strptime(text, '%H:%M:%S,%f')`, reduced to the fields it yields:
hours (0–23), minutes (0–59), seconds (0–59) and microseconds (`%f`
digits right-padded to six places).  `none` models the `ValueError` the
script would die on.  The whole string must be consumed. -/
def parseFields (cs : List Char) : Option (Nat × Nat × Nat × Nat) :=
  match takeDigitsAux 2 0 0 cs with
  | (h, hc, cs1) =>
    if hc = 0 then none else if 23 < h then none else
    match expectChar ':' cs1 with
    | none => none
    | some cs2 =>
      match takeDigitsAux 2 0 0 cs2 with
      | (m, mc, cs3) =>
        if mc = 0 then none else if 59 < m then none else
        match expectChar ':' cs3 with
        | none => none
        | some cs4 =>
          match takeDigitsAux 2 0 0 cs4 with
          | (s, sc, cs5) =>
            if sc = 0 then none else if 59 < s then none else
            match expectChar ',' cs5 with
            | none => none
            | some cs6 =>
              match takeDigitsAux 6 0 0 cs6 with
              | (f, fc, cs7) =>
                if fc = 0 then none else
                match cs7 with
                | [] => some (h, m, s, f * 10 ^ (6 - fc))
                | _ :: _ => none

/-- Parse a comma-separated time code and convert it to seconds exactly as
the scripts do:
`(microsecond/1000000 + second) + minute*60 + hour*3600`. -/
def parseTimeCode (s : String) : Option ℚ :=
  (parseFields s.data).map
    (fun t => ((t.2.2.2 : ℚ) / 1000000 + t.2.2.1) + t.2.1 * 60 + t.1 * 3600)

/-!  A minimal exact model of IEEE-754 binary64 rounding, used only to
evaluate `getTimeCode` with the floating-point semantics the script
actually runs under (normal range; round to nearest, ties to even). -/

/-- Binary exponent search, upward leg: while `2 ≤ q`, halve. -/
def ilog2Up : Nat → ℚ → Int → Int
  | 0, _, e => e
  | f + 1, q, e => if 2 ≤ q then ilog2Up f (q / 2) (e + 1) else e

/-- Binary exponent search, downward leg: while `q < 1`, double. -/
def ilog2Down : Nat → ℚ → Int → Int
  | 0, _, e => e
  | f + 1, q, e => if q < 1 then ilog2Down f (q * 2) (e - 1) else e

/-- The exponent `e` with `2 ^ e ≤ q < 2 ^ (e + 1)` for positive `q`
(fuel 1100 covers the binary64 range). -/
def ilog2 (q : ℚ) : Int :=
  if 1 ≤ q then ilog2Up 1100 q 0 else ilog2Down 1100 q 0

/-- Round a positive rational to 53 significant bits, ties to even. -/
def flPos (q : ℚ) : ℚ :=
  (rhe (q * 2 ^ (52 - ilog2 q)) : ℚ) / 2 ^ (52 - ilog2 q)

/-- Round a rational to the nearest binary64 value (normal range). -/
def fl (q : ℚ) : ℚ :=
  if q = 0 then 0 else if q < 0 then -flPos (-q) else flPos q

/-- `getTimeCode(seconds)` under floating-point semantics: each inexact
operation is followed by a `fl` rounding step.  `seconds % 1` and `q % 1`
are exact for binary64 values (the result is a tail of the operand's
bits), so only the two multiplications and the division round. -/
def getTimeCodeFloat (seconds : ℚ) : String :=
  let t_hund := pyint (fl (pymod1 seconds * 1000))
  let t_seconds := pyint seconds
  let q := fl ((t_seconds : ℚ) / 60)
  let t_secs := fl ((q - ⌊q⌋) * 60)
  let t_mins := pyint q
  pad0 2 0 ++ ":" ++ pad0 2 t_mins ++ ":" ++ pad0 2 (pyint t_secs) ++ "," ++ pad0 3 t_hund

/-!  The phrase segmenter (`getPhrasesFromTranscript`, identical in
createSRTfromTranscriptionFile.py, createVTTfromTranscriptionFile.py and
createSSMLfromTranscriptionFile.py). -/

/-- One item of the Transcribe JSON stream: `item["type"]`,
`float(item["start_time"])`, `float(item["end_time"])` and
`item['alternatives'][0]["content"]`.  The timing fields are only read
when `type = "pronunciation"` (punctuation items carry none). -/
structure TItem where
  type : String
  start_time : ℚ
  end_time : ℚ
  content : String
deriving DecidableEq

/-- The phrase record `{'start_time': …, 'end_time': …, 'words': […]}`. -/
structure Phrase where
  start_time : String
  end_time : String
  words : List String
deriving DecidableEq

/-- `newPhrase()`. -/
def newPhrase : Phrase := ⟨"", "", []⟩

/-- The loop state of `getPhrasesFromTranscript`: the current phrase, the
sealed phrases, the new-phrase flag `nPhrase` and the token counter `x`. -/
structure SegState where
  phrase : Phrase
  phrases : List Phrase
  nPhrase : Bool
  x : Nat
deriving DecidableEq

/-- One iteration of the `for item in items` loop of
`getPhrasesFromTranscript` (lines 106–132). -/
def segStep (st : SegState) (item : TItem) : SegState :=
  let ph1 :=
    if st.nPhrase then
      if item.type = "pronunciation" then
        { st.phrase with start_time := getTimeCode item.start_time }
      else st.phrase
    else
      if item.type = "pronunciation" then
        { st.phrase with end_time := getTimeCode item.end_time }
      else st.phrase
  let n1 :=
    if st.nPhrase then
      if item.type = "pronunciation" then false else st.nPhrase
    else st.nPhrase
  let ph2 := { ph1 with words := ph1.words ++ [item.content] }
  if st.x + 1 = 10 then ⟨newPhrase, st.phrases ++ [ph2], true, 0⟩
  else ⟨ph2, st.phrases, n1, st.x + 1⟩

/-- The initial loop state (`phrase = newPhrase()`, `phrases = []`,
`nPhrase = True`, `x = 0`). -/
def initSeg : SegState := ⟨newPhrase, [], true, 0⟩

/-- `getPhrasesFromTranscript`: run the loop and return the sealed
phrases (the partially filled current phrase is never returned). -/
def getPhrasesFromTranscript (items : List TItem) : List Phrase :=
  (items.foldl segStep initSeg).phrases

/-- The phrase-and-flag part of `segStep`, without sealing; used to state
what one ten-token chunk contributes. -/
def chunkAccum (pn : Phrase × Bool) (item : TItem) : Phrase × Bool :=
  let ph1 :=
    if pn.2 then
      if item.type = "pronunciation" then
        { pn.1 with start_time := getTimeCode item.start_time }
      else pn.1
    else
      if item.type = "pronunciation" then
        { pn.1 with end_time := getTimeCode item.end_time }
      else pn.1
  let n1 :=
    if pn.2 then
      if item.type = "pronunciation" then false else pn.2
    else pn.2
  ({ ph1 with words := ph1.words ++ [item.content] }, n1)

/-- The phrase a full chunk of tokens is sealed into. -/
def chunkPhrase (c : List TItem) : Phrase :=
  (c.foldl chunkAccum (newPhrase, true)).1

/-- The complete ten-token chunks of the stream, leftover dropped. -/
def exactChunksAux : Nat → List TItem → List (List TItem)
  | 0, _ => []
  | f + 1, l =>
    if 10 ≤ l.length then l.take 10 :: exactChunksAux f (l.drop 10) else []

/-- The complete ten-token chunks of the stream, leftover dropped. -/
def exactChunks (l : List TItem) : List (List TItem) :=
  exactChunksAux l.length l

/-!  The text renderer `getPhraseText` (identical in all three
transcript-driven scripts). -/

/-- `re.match('[a-zA-Z0-9]', s)` is truthy: the string is nonempty and
its first character is an ASCII letter or digit. -/
def asciiAlnumFirst (s : String) : Bool :=
  match s.data with
  | [] => false
  | c :: _ => ('a' ≤ c && c ≤ 'z') || ('A' ≤ c && c ≤ 'Z') || ('0' ≤ c && c ≤ '9')

/-- The `for i in range(0, length)` loop of `getPhraseText`
(lines 186–193), carrying the index and the accumulated output. -/
def getPhraseTextAux : Nat → List String → String → String
  | _, [], out => out
  | i, w :: ws, out =>
    getPhraseTextAux (i + 1) ws
      (if asciiAlnumFirst w then (if 0 < i then out ++ " " ++ w else out ++ w)
       else out ++ w)

/-- `getPhraseText(phrase)`. -/
def getPhraseText (p : Phrase) : String := getPhraseTextAux 0 p.words ""

/-- The separator a non-first token receives. -/
def sepTok (t : String) : String :=
  (if asciiAlnumFirst t then " " else "") ++ t

/-- Modelled from the spec's words (§4.3), for comparison with the code:
first token verbatim, each later token prefixed by one space exactly when
its first character is alphanumeric. -/
def specRender : List String → String
  | [] => ""
  | w :: ws => w ++ String.join (ws.map sepTok)

/-!  The SRT emitter `writeSRT` (lines 143–171), reduced to the lines it
writes (the file is their newline join). -/

/-- The lines `writeSRT` produces for phrases, numbering from `x`:
per phrase the cue number, the line
`phrase["start_time"] + " --> " + phrase["end_time"]`, the rendered text,
and the blank separator line. -/
def writeSRTlinesFrom (x : Nat) : List Phrase → List String
  | [] => []
  | p :: rest =>
    pyStr x :: (p.start_time ++ " --> " ++ p.end_time) :: getPhraseText p :: "" ::
      writeSRTlinesFrom (x + 1) rest

/-- The lines of the SRT file `writeSRT` emits (numbering starts at 1). -/
def writeSRTlines (phrases : List Phrase) : List String :=
  writeSRTlinesFrom 1 phrases

/-!  The SRT-to-SSML path (createSSMLfromSRT.py, lines 86–140). -/

/-- Python `str.strip()`: remove leading and trailing whitespace. -/
def pyStrip (s : String) : String :=
  ⟨((s.data.dropWhile Char.isWhitespace).reverse.dropWhile Char.isWhitespace).reverse⟩

/-- Python `str.isnumeric()` restricted to the ASCII repertoire these
files contain: nonempty and all decimal digits. -/
def pyIsNumeric (s : String) : Bool :=
  !s.data.isEmpty && s.data.all Char.isDigit

/-- The filter of lines 90–92: keep a stripped line when it is not
numeric and not empty. -/
def keepLine (l : String) : Bool := !pyIsNumeric l && !(l == "")

/-- Lines 86–92: strip every line, then drop cue-number and blank lines. -/
def srtlines2 (lines : List String) : List String :=
  (lines.map pyStrip).filter keepLine

/-- Python `str.split()` with no argument: split on whitespace runs,
dropping empty pieces.  The accumulator holds the current word reversed. -/
def pySplitAux : List Char → List Char → List (List Char)
  | [], acc => if acc.isEmpty then [] else [acc.reverse]
  | c :: cs, acc =>
    if c.isWhitespace then
      if acc.isEmpty then pySplitAux cs [] else acc.reverse :: pySplitAux cs []
    else pySplitAux cs (c :: acc)

/-- Python `str.split()` with no argument. -/
def pySplit (cs : List Char) : List (List Char) := pySplitAux cs []

/-- The characters of the `-->` marker. -/
def arrowChars : List Char := ['-', '-', '>']

/-- Python `sub in s` for character sequences. -/
def containsSeq (pat : List Char) : List Char → Bool
  | [] => pat.isEmpty
  | c :: cs => pat.isPrefixOf (c :: cs) || containsSeq pat cs

/-- The loop of lines 98–123 over the filtered lines: for each line
containing `-->`, split it, parse fields 0 and 2 as time codes, compute
`(end - start) * pcttimepad` formatted with `"%3.2f"`, and pair it with
the immediately following filtered line.  `none` models the script dying
with `ValueError`/`IndexError`. -/
def buildCues (pad : ℚ) : List String → Option (List (String × String))
  | [] => some []
  | l :: rest => do
    let tail ← buildCues pad rest
    if containsSeq arrowChars l.data then do
      let t0 ← (pySplit l.data).get? 0
      let t2 ← (pySplit l.data).get? 2
      let qs ← parseTimeCode ⟨t0⟩
      let qe ← parseTimeCode ⟨t2⟩
      let nxt ← rest.head?
      some ((fmt2 ((qe - qs) * pad), nxt) :: tail)
    else some tail

/-- `srtlines3`: the list of (formatted duration, text line) pairs. -/
def srtlines3 (lines : List String) (pad : ℚ) : Option (List (String × String)) :=
  buildCues pad (srtlines2 lines)

/-- Lines 131–140: the SSML document built from the cue pairs. -/
def ssmlFromSRT (lines : List String) (pad : ℚ) : Option String :=
  (srtlines3 lines pad).map (fun cues =>
    "<speak>\n" ++
      String.join (cues.map (fun ph =>
        "<prosody amazon:max-duration=\"" ++ ph.1 ++ "\">" ++ ph.2 ++ "</prosody>\n")) ++
      "</speak>")

/-!  The transcript-to-SSML emitter `writeSSML`
(createSSMLfromTranscriptionFile.py, lines 146–177). -/

/-- One `<prosody>` line of `writeSSML`: parse the phrase's stored time
codes, compute `(end - start) * pcttimepad`, format with `"%3.2f"` and
wrap the rendered phrase text. -/
def phraseSSMLline (pad : ℚ) (p : Phrase) : Option String := do
  let qs ← parseTimeCode p.start_time
  let qe ← parseTimeCode p.end_time
  some ("<prosody amazon:max-duration=\"" ++ fmt2 ((qe - qs) * pad) ++ "\">" ++
    getPhraseText p ++ "</prosody>\n")

/-- The SSML document `writeSSML` builds. -/
def writeSSMLdoc (phrases : List Phrase) (pad : ℚ) : Option String := do
  let ls ← phrases.mapM (phraseSSMLline pad)
  some ("<speak>\n" ++ String.join ls ++ "</speak>")

/-- The duration attributes emitted by the SRT-driven SSML path. -/
def srtDurations (lines : List String) (pad : ℚ) : Option (List String) :=
  (srtlines3 lines pad).map (List.map Prod.fst)

/-- The duration attributes emitted by the transcript-driven SSML path. -/
def phraseDurations (phrases : List Phrase) (pad : ℚ) : Option (List String) :=
  phrases.mapM (fun p => do
    let qs ← parseTimeCode p.start_time
    let qe ← parseTimeCode p.end_time
    some (fmt2 ((qe - qs) * pad)))

/-- A sample stream: one pronunciation, then ten punctuation tokens. -/
def sampleStream : List TItem :=
  ⟨"pronunciation", 0, 1, "hi"⟩ :: List.replicate 10 ⟨"punctuation", 0, 0, ","⟩

/-- The phrase record that absorbed the token in one loop iteration: the
sealed phrase if this step filled it, the current phrase otherwise. -/
def absorbedPhrase (st : SegState) (i : TItem) : Phrase :=
  if st.x + 1 = 10 then ((segStep st i).phrases).getLastD newPhrase
  else (segStep st i).phrase

/-- Concatenation of a token list (used to state what the renderer's
accumulating loop produces). -/
def strJoin : List String → String
  | [] => ""
  | s :: l => s ++ strJoin l

/-- The three-line SRT document of the spec's example cue. -/
def exampleSRT : List String := ["1", "00:00:01,000 --> 00:00:03,000", "Hello"]

/-- The well-formedness a phrase needs for its SRT cue to survive the
SSML-from-SRT filtering: parseable time codes, whitespace-free nonempty
time fields, and a rendered text line that is strip-invariant, nonempty,
non-numeric and free of the `-->` marker. -/
def phraseOK (p : Phrase) : Prop :=
  (∃ q, parseTimeCode p.start_time = some q) ∧
  (∃ q, parseTimeCode p.end_time = some q) ∧
  p.start_time.data ≠ [] ∧ (∀ c ∈ p.start_time.data, c.isWhitespace = false) ∧
  p.end_time.data ≠ [] ∧ (∀ c ∈ p.end_time.data, c.isWhitespace = false) ∧
  pyStrip (getPhraseText p) = getPhraseText p ∧
  getPhraseText p ≠ "" ∧
  pyIsNumeric (getPhraseText p) = false ∧
  containsSeq arrowChars (getPhraseText p).data = false

/-!  Segmenter lemmas: the loop seals exactly one phrase per full
ten-token chunk and drops the remainder. -/

lemma chunkAccum_words (pn : Phrase × Bool) (i : TItem) :
    ((chunkAccum pn i).1).words = pn.1.words ++ [i.content] := by
  unfold chunkAccum
  split_ifs <;> rfl

lemma segStep_noseal (st : SegState) (i : TItem) (h : ¬ st.x + 1 = 10) :
    segStep st i = ⟨(chunkAccum (st.phrase, st.nPhrase) i).1, st.phrases,
      (chunkAccum (st.phrase, st.nPhrase) i).2, st.x + 1⟩ := by
  unfold segStep chunkAccum
  simp only [if_neg h]

lemma segStep_seal (st : SegState) (i : TItem) (h : st.x + 1 = 10) :
    segStep st i =
      ⟨newPhrase, st.phrases ++ [(chunkAccum (st.phrase, st.nPhrase) i).1], true, 0⟩ := by
  unfold segStep chunkAccum
  simp only [if_pos h]

lemma foldl_segStep_noseal :
    ∀ (c : List TItem) (p : Phrase) (ps : List Phrase) (n : Bool) (x : Nat),
    x + c.length < 10 →
    c.foldl segStep ⟨p, ps, n, x⟩ =
      ⟨(c.foldl chunkAccum (p, n)).1, ps, (c.foldl chunkAccum (p, n)).2, x + c.length⟩ := by
  intro c
  induction c with
  | nil => intro p ps n x h; simp
  | cons i c ih =>
    intro p ps n x h
    simp only [List.length_cons] at h
    rw [List.foldl_cons, List.foldl_cons,
      segStep_noseal ⟨p, ps, n, x⟩ i (by simp only; omega)]
    simp only
    rw [ih (chunkAccum (p, n) i).1 ps (chunkAccum (p, n) i).2 (x + 1) (by omega)]
    simp only [SegState.mk.injEq, Prod.mk.eta, List.length_cons, and_true, true_and]
    omega

lemma foldl_segStep_seal :
    ∀ (c : List TItem) (p : Phrase) (ps : List Phrase) (n : Bool) (x : Nat),
    x + c.length = 10 → c ≠ [] →
    c.foldl segStep ⟨p, ps, n, x⟩ =
      ⟨newPhrase, ps ++ [(c.foldl chunkAccum (p, n)).1], true, 0⟩ := by
  intro c
  induction c with
  | nil => intro _ _ _ _ _ hne; exact absurd rfl hne
  | cons i c ih =>
    intro p ps n x h _
    cases c with
    | nil =>
      simp only [List.length_cons, List.length_nil] at h
      rw [List.foldl_cons, List.foldl_nil,
        segStep_seal ⟨p, ps, n, x⟩ i (by simp only; omega)]
      simp
    | cons j c2 =>
      simp only [List.length_cons] at h
      rw [List.foldl_cons, segStep_noseal ⟨p, ps, n, x⟩ i (by simp only; omega)]
      simp only
      rw [ih (chunkAccum (p, n) i).1 ps (chunkAccum (p, n) i).2 (x + 1)
        (by simp only [List.length_cons]; omega) (by simp)]
      simp [List.foldl_cons]

lemma foldl_segStep_phrases :
    ∀ (fuel : Nat) (items : List TItem) (ps : List Phrase),
    items.length ≤ fuel →
    (items.foldl segStep ⟨newPhrase, ps, true, 0⟩).phrases =
      ps ++ (exactChunksAux fuel items).map chunkPhrase := by
  intro fuel
  induction fuel with
  | zero =>
    intro items ps h
    have : items = [] := List.eq_nil_of_length_eq_zero (by omega)
    subst this
    simp [exactChunksAux]
  | succ f ih =>
    intro items ps h
    by_cases h10 : 10 ≤ items.length
    · have htake : (items.take 10).length = 10 := by
        rw [List.length_take]; omega
      have hdrop : (items.drop 10).length ≤ f := by
        rw [List.length_drop]; omega
      conv_lhs => rw [← List.take_append_drop 10 items]
      rw [List.foldl_append,
        foldl_segStep_seal (items.take 10) newPhrase ps true 0
          (by rw [htake])
          (by
            intro hnil
            rw [hnil] at htake
            simp at htake)]
      rw [show (List.foldl chunkAccum (newPhrase, true) (items.take 10)).1 =
        chunkPhrase (items.take 10) from rfl]
      rw [ih (items.drop 10) (ps ++ [chunkPhrase (items.take 10)]) hdrop]
      rw [exactChunksAux, if_pos h10]
      simp
    · rw [foldl_segStep_noseal items newPhrase ps true 0 (by omega)]
      rw [exactChunksAux, if_neg h10]
      simp

lemma getPhrases_eq_chunks (items : List TItem) :
    getPhrasesFromTranscript items = (exactChunks items).map chunkPhrase := by
  have := foldl_segStep_phrases items.length items [] le_rfl
  simpa [getPhrasesFromTranscript, initSeg, exactChunks] using this

lemma exactChunksAux_length :
    ∀ (fuel : Nat) (l : List TItem), l.length ≤ fuel →
    (exactChunksAux fuel l).length = l.length / 10 := by
  intro fuel
  induction fuel with
  | zero =>
    intro l h
    have : l = [] := List.eq_nil_of_length_eq_zero (by omega)
    subst this; simp [exactChunksAux]
  | succ f ih =>
    intro l h
    rw [exactChunksAux]
    by_cases h10 : 10 ≤ l.length
    · rw [if_pos h10]
      simp only [List.length_cons, ih (l.drop 10) (by simp [List.length_drop]; omega),
        List.length_drop]
      omega
    · rw [if_neg h10]
      simp only [List.length_nil]
      omega

lemma exactChunksAux_mem_length :
    ∀ (fuel : Nat) (l : List TItem) (c : List TItem), l.length ≤ fuel →
    c ∈ exactChunksAux fuel l → c.length = 10 := by
  intro fuel
  induction fuel with
  | zero =>
    intro l c h hmem
    have : l = [] := List.eq_nil_of_length_eq_zero (by omega)
    subst this; simp [exactChunksAux] at hmem
  | succ f ih =>
    intro l c h hmem
    rw [exactChunksAux] at hmem
    by_cases h10 : 10 ≤ l.length
    · rw [if_pos h10] at hmem
      rcases List.mem_cons.mp hmem with h1 | h2
      · subst h1; simp [List.length_take]; omega
      · exact ih (l.drop 10) c (by simp [List.length_drop]; omega) h2
    · rw [if_neg h10] at hmem
      simp at hmem

lemma exactChunksAux_join :
    ∀ (fuel : Nat) (l : List TItem), l.length ≤ fuel →
    (exactChunksAux fuel l).flatten = l.take (10 * (l.length / 10)) := by
  intro fuel
  induction fuel with
  | zero =>
    intro l h
    have : l = [] := List.eq_nil_of_length_eq_zero (by omega)
    subst this; simp [exactChunksAux]
  | succ f ih =>
    intro l h
    rw [exactChunksAux]
    by_cases h10 : 10 ≤ l.length
    · rw [if_pos h10]
      rw [List.flatten_cons, ih (l.drop 10) (by simp [List.length_drop]; omega)]
      have harith : 10 * (l.length / 10) = 10 + 10 * ((l.length - 10) / 10) := by omega
      rw [harith, List.take_add]
      simp [List.length_drop]
    · rw [if_neg h10]
      have : l.length / 10 = 0 := by omega
      simp [this]

lemma foldl_chunkAccum_words :
    ∀ (c : List TItem) (pn : Phrase × Bool),
    ((c.foldl chunkAccum pn).1).words = pn.1.words ++ c.map TItem.content := by
  intro c
  induction c with
  | nil => intro pn; simp
  | cons i c ih =>
    intro pn
    rw [List.foldl_cons, ih (chunkAccum pn i), chunkAccum_words]
    simp

lemma chunkPhrase_words (c : List TItem) :
    (chunkPhrase c).words = c.map TItem.content := by
  simp [chunkPhrase, foldl_chunkAccum_words, newPhrase]

/-- Claim C1: for every token stream of length `n` the segmenter emits
exactly `n / 10` sealed phrases, each holding exactly ten tokens in
source order, and the trailing `n % 10` tokens appear in no emitted
phrase (the emitted words are precisely the first `10 * (n / 10)` token
contents, in order). -/
theorem segmenter_seals_floor_chunks (items : List TItem) :
    (getPhrasesFromTranscript items).length = items.length / 10 ∧
    (∀ p ∈ getPhrasesFromTranscript items, p.words.length = 10) ∧
    ((getPhrasesFromTranscript items).map Phrase.words).flatten =
      (items.map TItem.content).take (10 * (items.length / 10)) := by
  rw [getPhrases_eq_chunks]
  refine ⟨?_, ?_, ?_⟩
  · rw [List.length_map]
    exact exactChunksAux_length items.length items le_rfl
  · intro p hp
    rcases List.mem_map.mp hp with ⟨c, hc, rfl⟩
    rw [chunkPhrase_words, List.length_map]
    exact exactChunksAux_mem_length items.length items c le_rfl hc
  · rw [List.map_map]
    have hw : (Phrase.words ∘ chunkPhrase) = fun c => c.map TItem.content := by
      funext c; exact chunkPhrase_words c
    rw [hw, ← List.map_flatten, exactChunks,
      exactChunksAux_join items.length items le_rfl, List.map_take]

theorem segmenter_seals_floor_chunks_witness :
    (getPhrasesFromTranscript sampleStream).length = sampleStream.length / 10 ∧
    (∀ p ∈ getPhrasesFromTranscript sampleStream, p.words.length = 10) ∧
    ((getPhrasesFromTranscript sampleStream).map Phrase.words).flatten =
      (sampleStream.map TItem.content).take (10 * (sampleStream.length / 10)) :=
  segmenter_seals_floor_chunks sampleStream

/-!  Concrete evaluations of the exact-rational `getTimeCode`. -/

lemma getTimeCode_one : getTimeCode 1 = "00:00:01,000" := by
  rw [getTimeCode, getTimeCodeSep]
  norm_num [pyint, pymod1]
  decide

lemma getTimeCode_zero : getTimeCode 0 = "00:00:00,000" := by
  rw [getTimeCode, getTimeCodeSep]
  norm_num [pyint, pymod1]
  decide

/-!  Claim C2: which tokens update `end_time`. -/

/-- Claim C2 counterexample: the very first consumed token is a Word
(pronunciation) with end time 1 s; the claim says the current phrase's
`end_time` is then `getTimeCode 1 = "00:00:01,000"`, but the source only
sets `start_time` on that branch and `end_time` stays empty. -/
theorem flagged_word_leaves_endtime_empty :
    ¬ ((segStep initSeg ⟨"pronunciation", 0, 1, "hi"⟩).phrase.end_time
        = getTimeCode 1) := by
  have h1 : (segStep initSeg ⟨"pronunciation", 0, 1, "hi"⟩).phrase.end_time = "" := rfl
  rw [h1, getTimeCode_one]
  decide

/-- Claim C2 as amended: a consumed Word token updates the absorbing
phrase's `end_time` exactly when the new-phrase flag is clear; the Word
that arrives with the flag set only sets `start_time` (and any token
consumed with the flag set leaves `end_time` unchanged). -/
theorem endtime_updated_iff_flag_clear (st : SegState) (i : TItem) :
    (absorbedPhrase st i).end_time =
      (if st.nPhrase = false ∧ i.type = "pronunciation"
        then getTimeCode i.end_time else st.phrase.end_time) ∧
    (absorbedPhrase st i).start_time =
      (if st.nPhrase = true ∧ i.type = "pronunciation"
        then getTimeCode i.start_time else st.phrase.start_time) := by
  unfold absorbedPhrase segStep
  rcases hn : st.nPhrase <;> by_cases hp : i.type = "pronunciation" <;>
    by_cases hx : st.x + 1 = 10 <;>
    simp [hn, hp, hx]

/-!  Claims C6 and C10: the text renderer. -/

lemma strJoin_append (a b : List String) :
    strJoin (a ++ b) = strJoin a ++ strJoin b := by
  induction a with
  | nil => simp [strJoin, String.empty_append]
  | cons s a ih =>
    rw [List.cons_append, strJoin, strJoin, ih, String.append_assoc]

lemma strFoldl_shift :
    ∀ (l : List String) (a : String),
    List.foldl (fun r s => r ++ s) a l = a ++ List.foldl (fun r s => r ++ s) "" l := by
  intro l
  induction l with
  | nil => intro a; simp [String.append_empty]
  | cons b l ih =>
    intro a
    simp only [List.foldl_cons]
    rw [ih (a ++ b), ih ("" ++ b), String.empty_append, String.append_assoc]

lemma join_eq_strJoin (l : List String) : String.join l = strJoin l := by
  induction l with
  | nil => rfl
  | cons s l ih =>
    rw [String.join] at ih ⊢
    rw [List.foldl_cons, strFoldl_shift l, ih, strJoin]
    rw [String.empty_append]

lemma getPhraseTextAux_tail :
    ∀ (ws : List String) (i : Nat) (out : String),
    getPhraseTextAux (i + 1) ws out = out ++ strJoin (ws.map sepTok) := by
  intro ws
  induction ws with
  | nil => intro i out; simp [getPhraseTextAux, strJoin, String.append_empty]
  | cons w ws ih =>
    intro i out
    rw [getPhraseTextAux]
    have hstep :
        (if asciiAlnumFirst w then
          (if 0 < i + 1 then out ++ " " ++ w else out ++ w)
         else out ++ w) = out ++ sepTok w := by
      by_cases ha : asciiAlnumFirst w <;>
        simp [ha, sepTok, String.append_assoc, String.empty_append]
    rw [hstep, ih (i + 1) (out ++ sepTok w)]
    simp [List.map_cons, strJoin, String.append_assoc]

lemma getPhraseText_eq_specRender (p : Phrase) :
    getPhraseText p = specRender p.words := by
  rw [getPhraseText]
  cases hw : p.words with
  | nil => rfl
  | cons w ws =>
    rw [getPhraseTextAux]
    have hstep :
        (if asciiAlnumFirst w then
          (if 0 < 0 then "" ++ " " ++ w else "" ++ w)
         else "" ++ w) = "" ++ w := by
      by_cases ha : asciiAlnumFirst w <;> simp [ha]
    rw [hstep, getPhraseTextAux_tail ws 0 ("" ++ w), String.empty_append]
    rw [specRender, join_eq_strJoin]

/-- Claim C6: the renderer appends the first token verbatim and prefixes
every later token with exactly one space when its first character is
alphanumeric and with nothing otherwise; in particular
`["Hello", ",", "world", "."]` renders as `"Hello, world."`. -/
theorem renderer_space_rule (p : Phrase) :
    getPhraseText p = specRender p.words ∧
    getPhraseText ⟨"", "", ["Hello", ",", "world", "."]⟩ = "Hello, world." := by
  refine ⟨getPhraseText_eq_specRender p, ?_⟩
  decide

/-- Claim C10: the alphanumeric test is ASCII-only.  A later token whose
first character is outside `[a-zA-Z0-9]` — including the non-ASCII
letter `é` and the empty token — receives no separating space. -/
theorem renderer_ascii_only (s e w t : String) (rest post : List String)
    (ht : asciiAlnumFirst t = false) :
    getPhraseText ⟨s, e, w :: (rest ++ t :: post)⟩ =
      getPhraseText ⟨s, e, w :: rest⟩ ++ t ++ strJoin (post.map sepTok) ∧
    asciiAlnumFirst "é" = false ∧ asciiAlnumFirst "" = false := by
  refine ⟨?_, by decide, by decide⟩
  rw [getPhraseText_eq_specRender, getPhraseText_eq_specRender]
  show specRender (w :: (rest ++ t :: post)) = _
  rw [specRender, specRender, join_eq_strJoin, join_eq_strJoin]
  rw [List.map_append, strJoin_append, List.map_cons, strJoin]
  rw [show sepTok t = t from by simp [sepTok, ht, String.empty_append]]
  simp [String.append_assoc]

theorem renderer_ascii_only_witness :
    asciiAlnumFirst "é" = false ∧
    (getPhraseText ⟨"", "", "Hello" :: ([] ++ "é" :: [])⟩ =
      getPhraseText ⟨"", "", ["Hello"]⟩ ++ "é" ++ strJoin ([].map sepTok) ∧
     asciiAlnumFirst "é" = false ∧ asciiAlnumFirst "" = false) :=
  ⟨by decide, renderer_ascii_only "" "" "Hello" "é" [] [] (by decide)⟩

/-!  Decimal digit and padding lemmas. -/

lemma digChar_isDigit (d : Nat) (h : d < 10) : (digChar d).isDigit = true := by
  interval_cases d <;> decide

lemma digVal_digChar (d : Nat) (h : d < 10) : digVal (digChar d) = d := by
  interval_cases d <;> decide

lemma natReprAux_succ (f n : Nat) (hn : n ≠ 0) :
    natReprAux (f + 1) n = natReprAux f (n / 10) ++ [digChar (n % 10)] := by
  cases n with
  | zero => exact absurd rfl hn
  | succ m =>
    rw [natReprAux]
    exact fun h => absurd h (Nat.succ_ne_zero m)

lemma natReprAux_zero (f : Nat) : natReprAux (f + 1) 0 = [] := by
  rw [natReprAux]

lemma natReprAux_single (f k : Nat) (h1 : 1 ≤ k) (h2 : k < 10) (hf : 2 ≤ f) :
    natReprAux f k = [digChar k] := by
  obtain ⟨g, rfl⟩ : ∃ g, f = g + 1 + 1 := ⟨f - 2, by omega⟩
  rw [natReprAux_succ _ _ (by omega), Nat.div_eq_of_lt h2, natReprAux_zero,
    Nat.mod_eq_of_lt h2, List.nil_append]

lemma natRepr_lt10 (n : Nat) (h : n < 10) : natRepr n = [digChar n] := by
  rcases Nat.eq_zero_or_pos n with h0 | h0
  · subst h0; rfl
  · obtain ⟨g, rfl⟩ : ∃ g, n = g + 1 := ⟨n - 1, by omega⟩
    rw [natRepr, if_neg (by omega), natReprAux_succ _ _ (by omega),
      Nat.div_eq_of_lt h, natReprAux_zero, Nat.mod_eq_of_lt h, List.nil_append]

lemma natRepr_two (n : Nat) (h1 : 10 ≤ n) (h2 : n < 100) :
    natRepr n = [digChar (n / 10), digChar (n % 10)] := by
  rw [natRepr, if_neg (by omega), natReprAux_succ _ _ (by omega),
    natReprAux_single n (n / 10) (by omega) (by omega) (by omega)]
  rfl

lemma natRepr_three (n : Nat) (h1 : 100 ≤ n) (h2 : n < 1000) :
    natRepr n = [digChar (n / 100), digChar (n / 10 % 10), digChar (n % 10)] := by
  rw [natRepr, if_neg (by omega), natReprAux_succ _ _ (by omega)]
  obtain ⟨g, hg⟩ : ∃ g, n = g + 1 := ⟨n - 1, by omega⟩
  rw [hg, natReprAux_succ g ((g + 1) / 10) (by omega),
    natReprAux_single (g) ((g + 1) / 10 / 10) (by omega) (by omega) (by omega)]
  rw [Nat.div_div_eq_div_mul]
  simp [← hg]

lemma padNat_two (n : Nat) (h : n < 100) :
    padNat 2 n = [digChar (n / 10), digChar (n % 10)] := by
  by_cases h10 : n < 10
  · simp only [padNat, natRepr_lt10 n h10, List.length_cons, List.length_nil]
    rw [Nat.div_eq_of_lt h10, Nat.mod_eq_of_lt h10]
    rfl
  · simp only [padNat, natRepr_two n (by omega) h, List.length_cons, List.length_nil]
    rfl

lemma padNat_three (n : Nat) (h : n < 1000) :
    padNat 3 n = [digChar (n / 100), digChar (n / 10 % 10), digChar (n % 10)] := by
  by_cases h10 : n < 10
  · simp only [padNat, natRepr_lt10 n h10, List.length_cons, List.length_nil]
    rw [Nat.div_eq_of_lt (by omega : n < 100), Nat.div_eq_of_lt h10,
      Nat.mod_eq_of_lt h10]
    rfl
  · by_cases h100 : n < 100
    · simp only [padNat, natRepr_two n (by omega) h100, List.length_cons, List.length_nil]
      rw [Nat.div_eq_of_lt h100, Nat.mod_eq_of_lt (by omega : n / 10 < 10)]
      rfl
    · simp only [padNat, natRepr_three n (by omega) h, List.length_cons, List.length_nil]
      rfl

/-!  Symbolic evaluation of the time-code parser. -/

lemma takeDigitsAux_digit (fuel acc cnt : Nat) (c : Char) (cs : List Char)
    (h : c.isDigit = true) :
    takeDigitsAux (fuel + 1) acc cnt (c :: cs) =
      takeDigitsAux fuel (10 * acc + digVal c) (cnt + 1) cs := by
  simp [takeDigitsAux, h]

lemma takeDigitsAux_nil (fuel acc cnt : Nat) :
    takeDigitsAux (fuel + 1) acc cnt [] = (acc, cnt, []) := by
  simp [takeDigitsAux]

lemma takeTwoDigits (x y : Nat) (rest : List Char) (hx : x < 10) (hy : y < 10) :
    takeDigitsAux 2 0 0 (digChar x :: digChar y :: rest) = (10 * x + y, 2, rest) := by
  have h1 := takeDigitsAux_digit 1 0 0 (digChar x) (digChar y :: rest) (digChar_isDigit x hx)
  have h2 := takeDigitsAux_digit 0 x 1 (digChar y) rest (digChar_isDigit y hy)
  norm_num [digVal_digChar x hx] at h1
  norm_num [digVal_digChar y hy] at h2
  rw [h1, h2, takeDigitsAux]

lemma takeThreeDigits (x y z : Nat) (hx : x < 10) (hy : y < 10) (hz : z < 10) :
    takeDigitsAux 6 0 0 [digChar x, digChar y, digChar z] =
      (100 * x + 10 * y + z, 3, []) := by
  have h1 := takeDigitsAux_digit 5 0 0 (digChar x) [digChar y, digChar z]
    (digChar_isDigit x hx)
  have h2 := takeDigitsAux_digit 4 x 1 (digChar y) [digChar z] (digChar_isDigit y hy)
  have h3 := takeDigitsAux_digit 3 (10 * x + y) 2 (digChar z) [] (digChar_isDigit z hz)
  have h4 := takeDigitsAux_nil 2 (10 * (10 * x + y) + z) 3
  norm_num [digVal_digChar x hx] at h1
  norm_num [digVal_digChar y hy] at h2
  norm_num [digVal_digChar z hz] at h3
  norm_num at h4
  rw [h1, h2, h3, h4]
  simp only [Prod.mk.injEq, and_true, true_and]
  omega

lemma parseFields_timecode (H M S ms : Nat)
    (hH : H ≤ 23) (hM : M ≤ 59) (hS : S ≤ 59) (hms : ms ≤ 999) :
    parseFields (padNat 2 H ++ ':' :: (padNat 2 M ++ ':' :: (padNat 2 S ++ ',' :: padNat 3 ms)))
      = some (H, M, S, ms * 1000) := by
  have h23 : ¬ 23 < H := by omega
  have h59M : ¬ 59 < M := by omega
  have h59S : ¬ 59 < S := by omega
  rw [padNat_two H (by omega), padNat_two M (by omega), padNat_two S (by omega),
    padNat_three ms (by omega)]
  simp only [List.cons_append, List.nil_append]
  rw [parseFields]
  rw [takeTwoDigits (H / 10) (H % 10) _ (by omega) (by omega), Nat.div_add_mod]
  simp only [if_neg h23]
  norm_num [expectChar]
  rw [takeTwoDigits (M / 10) (M % 10) _ (by omega) (by omega), Nat.div_add_mod]
  simp only [if_neg h59M]
  norm_num [expectChar]
  rw [takeTwoDigits (S / 10) (S % 10) _ (by omega) (by omega), Nat.div_add_mod]
  simp only [if_neg h59S]
  norm_num [expectChar]
  rw [takeThreeDigits (ms / 100) (ms / 10 % 10) (ms % 10) (by omega) (by omega) (by omega)]
  norm_num
  omega

/-!  Claim C3: accepted millisecond separators. -/

/-- Claim C3 counterexample: `"00:00:01.500"` uses the dot separator the
claim says is accepted, but the parse operation
(`strptime` with format `'%H:%M:%S,%f'`) rejects it. -/
theorem parse_rejects_dot_separator : parseTimeCode "00:00:01.500" = none := by
  rw [parseTimeCode, show parseFields "00:00:01.500".data = none from by decide]
  rfl

/-- Claim C3 as amended: the parse operation accepts only the comma
millisecond separator (dot-separated input is rejected), and on every
well-formed comma time code it returns
`hours*3600 + minutes*60 + seconds + fraction`. -/
theorem parse_comma_formula (H M S ms : Nat)
    (hH : H ≤ 23) (hM : M ≤ 59) (hS : S ≤ 59) (hms : ms ≤ 999) :
    parseTimeCode ⟨padNat 2 H ++ ':' :: (padNat 2 M ++ ':' :: (padNat 2 S ++ ',' :: padNat 3 ms))⟩
      = some ((H : ℚ) * 3600 + M * 60 + S + ms / 1000) ∧
    parseTimeCode "00:00:01.500" = none := by
  refine ⟨?_, parse_rejects_dot_separator⟩
  rw [parseTimeCode]
  rw [show (String.mk (padNat 2 H ++ ':' :: (padNat 2 M ++ ':' :: (padNat 2 S ++ ',' :: padNat 3 ms)))).data
    = padNat 2 H ++ ':' :: (padNat 2 M ++ ':' :: (padNat 2 S ++ ',' :: padNat 3 ms)) from rfl]
  rw [parseFields_timecode H M S ms hH hM hS hms]
  rw [Option.map_some']
  congr 1
  push_cast
  ring

theorem parse_comma_formula_witness :
    (parseTimeCode ⟨padNat 2 0 ++ ':' :: (padNat 2 0 ++ ':' :: (padNat 2 1 ++ ',' :: padNat 3 500))⟩
      = some ((0 : ℚ) * 3600 + 0 * 60 + 1 + 500 / 1000) ∧
     parseTimeCode "00:00:01.500" = none) ∧
    (0 : Nat) ≤ 23 :=
  ⟨parse_comma_formula 0 0 1 500 (by norm_num) (by norm_num) (by norm_num) (by norm_num),
   by norm_num⟩

/-!  Claims C4 and C5: the floating-point evaluation of `getTimeCode`
at 61.0 seconds. -/

lemma ilog2Up_succ (f : Nat) (q : ℚ) (e : Int) :
    ilog2Up (f + 1) q e = if 2 ≤ q then ilog2Up f (q / 2) (e + 1) else e := by
  rw [ilog2Up]

lemma ilog2Down_succ (f : Nat) (q : ℚ) (e : Int) :
    ilog2Down (f + 1) q e = if q < 1 then ilog2Down f (q * 2) (e - 1) else e := by
  rw [ilog2Down]

lemma rhe_eq_floor (q : ℚ) (h : q - ⌊q⌋ < 1/2) : rhe q = ⌊q⌋ := by
  rw [rhe, if_pos h]

lemma ilog2_61div60 : ilog2 ((61 : ℚ) / 60) = 0 := by
  rw [ilog2, if_pos (by norm_num), show (1100 : Nat) = 1099 + 1 from rfl,
    ilog2Up_succ, if_neg (by norm_num)]

lemma fl_61div60 : fl ((61 : ℚ) / 60) = 4578659621160004 / 4503599627370496 := by
  have hz : ((2 : ℚ) ^ ((52 : Int) - 0)) = 4503599627370496 := by norm_num
  have hf : (⌊(61 : ℚ) / 60 * 4503599627370496⌋ : Int) = 4578659621160004 := by
    norm_num
  have hr : rhe ((61 : ℚ) / 60 * 4503599627370496) = 4578659621160004 := by
    rw [rhe_eq_floor _ (by rw [hf]; norm_num), hf]
  rw [fl, if_neg (by norm_num), if_neg (by norm_num), flPos, ilog2_61div60, hz, hr]
  norm_num

lemma ilog2_fracval : ilog2 ((4503599627370480 : ℚ) / 4503599627370496) = -1 := by
  rw [ilog2, if_neg (by norm_num), show (1100 : Nat) = 1099 + 1 from rfl,
    ilog2Down_succ, if_pos (by norm_num), show (1099 : Nat) = 1098 + 1 from rfl,
    ilog2Down_succ, if_neg (by norm_num)]
  norm_num

lemma fl_fracval :
    fl ((4503599627370480 : ℚ) / 4503599627370496) =
      4503599627370480 / 4503599627370496 := by
  have hz : ((2 : ℚ) ^ ((52 : Int) - (-1))) = 9007199254740992 := by norm_num
  have hf : (⌊(4503599627370480 : ℚ) / 4503599627370496 * 9007199254740992⌋ : Int)
      = 9007199254740960 := by norm_num
  have hr : rhe ((4503599627370480 : ℚ) / 4503599627370496 * 9007199254740992)
      = 9007199254740960 := by
    rw [rhe_eq_floor _ (by rw [hf]; norm_num), hf]
  rw [fl, if_neg (by norm_num), if_neg (by norm_num), flPos, ilog2_fracval, hz, hr]
  norm_num

lemma getTimeCodeFloat_61 : getTimeCodeFloat 61 = "00:01:00,000" := by
  rw [getTimeCodeFloat]
  rw [show pymod1 (61 : ℚ) * 1000 = 0 from by norm_num [pymod1]]
  rw [show fl (0 : ℚ) = 0 from by rw [fl, if_pos rfl]]
  rw [show pyint (0 : ℚ) = 0 from by norm_num [pyint]]
  rw [show pyint (61 : ℚ) = 61 from by norm_num [pyint]]
  rw [show (((61 : Int) : ℚ)) / 60 = (61 : ℚ) / 60 from by norm_num]
  rw [fl_61div60]
  rw [show (⌊(4578659621160004 : ℚ) / 4503599627370496⌋ : Int) = 1 from by norm_num]
  rw [show ((4578659621160004 : ℚ) / 4503599627370496 - (1 : Int)) * 60
    = (4503599627370480 : ℚ) / 4503599627370496 from by norm_num]
  rw [fl_fracval]
  rw [show pyint ((4503599627370480 : ℚ) / 4503599627370496) = 0 from by
    norm_num [pyint]]
  rw [show pyint ((4578659621160004 : ℚ) / 4503599627370496) = 1 from by
    norm_num [pyint]]
  decide

lemma getTimeCode_61 : getTimeCode 61 = "00:01:01,000" := by
  rw [getTimeCode, getTimeCodeSep]
  norm_num [pyint, pymod1]
  decide

/-- Claim C4 (code bug): under the floating-point semantics the script
runs with, `getTimeCode(61.0)` is `"00:01:00,000"` (the expression
`((float(61)/60) % 1) * 60` evaluates to `0.9999999999999996`, which
`int()` truncates to 0); parsing that back yields 60 s, an error of a
full second, far beyond the claimed 0.001 tolerance.  Evaluating the same
formulas in exact real arithmetic would give `"00:01:01,000"`, so the
claim describes the intent and the code deviates from it. -/
theorem roundtrip_fails_at_61 :
    getTimeCodeFloat 61 = "00:01:00,000" ∧
    parseTimeCode "00:01:00,000" = some 60 ∧
    ¬ |(61 : ℚ) - 60| ≤ 1/1000 ∧
    getTimeCode 61 = "00:01:01,000" := by
  refine ⟨getTimeCodeFloat_61, ?_, by norm_num, getTimeCode_61⟩
  rw [parseTimeCode, show parseFields "00:01:00,000".data = some (0, 1, 0, 0) from by decide]
  rw [Option.map_some']
  norm_num

/-- Claim C5 (code bug): the format operation is claimed to emit the
seconds-within-minute field, but at 61.0 s the floating-point evaluation
emits `"00:01:00,000"` while the spec's field computation gives
`"00:01:01,000"` (seconds field 01). -/
theorem format_seconds_field_wrong_at_61 :
    getTimeCodeFloat 61 = "00:01:00,000" ∧
    specTimeCode ',' 61 = "00:01:01,000" ∧
    getTimeCodeFloat 61 ≠ specTimeCode ',' 61 := by
  have hs : specTimeCode ',' 61 = "00:01:01,000" := by
    rw [specTimeCode]
    norm_num
    decide
  refine ⟨getTimeCodeFloat_61, hs, ?_⟩
  rw [getTimeCodeFloat_61, hs]
  decide

/-!  Claim C9: all-punctuation phrases and their SRT time-range line. -/

lemma exactChunksAux_get :
    ∀ (fuel : Nat) (l : List TItem) (k : Nat), l.length ≤ fuel →
    10 * k + 10 ≤ l.length →
    (exactChunksAux fuel l).get? k = some ((l.drop (10 * k)).take 10) := by
  intro fuel
  induction fuel with
  | zero =>
    intro l k h hk
    omega
  | succ f ih =>
    intro l k h hk
    rw [exactChunksAux, if_pos (by omega)]
    cases k with
    | zero => simp
    | succ k2 =>
      have h1 : (l.drop 10).length ≤ f := by rw [List.length_drop]; omega
      have h2 : 10 * k2 + 10 ≤ (l.drop 10).length := by rw [List.length_drop]; omega
      rw [List.get?_cons_succ, ih (l.drop 10) k2 h1 h2, List.drop_drop,
        show 10 + 10 * k2 = 10 * (k2 + 1) from by omega]

lemma chunkAccum_punct (pn : Phrase × Bool) (i : TItem)
    (h : ¬ i.type = "pronunciation") :
    (chunkAccum pn i).1.start_time = pn.1.start_time ∧
    (chunkAccum pn i).1.end_time = pn.1.end_time ∧
    (chunkAccum pn i).2 = pn.2 := by
  unfold chunkAccum
  by_cases hn : pn.2 <;> simp [hn, h]

lemma foldl_chunkAccum_punct :
    ∀ (c : List TItem) (pn : Phrase × Bool),
    (∀ it ∈ c, ¬ it.type = "pronunciation") →
    (c.foldl chunkAccum pn).1.start_time = pn.1.start_time ∧
    (c.foldl chunkAccum pn).1.end_time = pn.1.end_time ∧
    (c.foldl chunkAccum pn).2 = pn.2 := by
  intro c
  induction c with
  | nil => intro pn _; exact ⟨rfl, rfl, rfl⟩
  | cons i c ih =>
    intro pn hall
    have hi := chunkAccum_punct pn i (hall i (List.mem_cons_self i c))
    have hrest := ih (chunkAccum pn i) (fun it hit => hall it (List.mem_cons_of_mem i hit))
    rw [List.foldl_cons]
    exact ⟨hrest.1.trans hi.1, (hrest.2.1).trans hi.2.1, (hrest.2.2).trans hi.2.2⟩

lemma chunkPhrase_punct (c : List TItem)
    (h : ∀ it ∈ c, it.type = "punctuation") :
    (chunkPhrase c).start_time = "" ∧ (chunkPhrase c).end_time = "" := by
  have h' : ∀ it ∈ c, ¬ it.type = "pronunciation" := by
    intro it hit
    rw [h it hit]
    decide
  have := foldl_chunkAccum_punct c (newPhrase, true) h'
  exact ⟨this.1, this.2.1⟩

lemma timeline_mem_writeSRTlinesFrom :
    ∀ (phrases : List Phrase) (x : Nat) (p : Phrase), p ∈ phrases →
    (p.start_time ++ " --> " ++ p.end_time) ∈ writeSRTlinesFrom x phrases := by
  intro phrases
  induction phrases with
  | nil => intro x p hp; simp at hp
  | cons q rest ih =>
    intro x p hp
    rw [writeSRTlinesFrom]
    rcases List.mem_cons.mp hp with h1 | h2
    · subst h1
      exact List.mem_cons_of_mem _ (List.mem_cons_self _ _)
    · exact List.mem_cons_of_mem _ (List.mem_cons_of_mem _ (List.mem_cons_of_mem _
        (List.mem_cons_of_mem _ (ih (x + 1) p h2))))

/-- Claim C9 as amended: when a run of ten consecutive punctuation
tokens is phrase-aligned (it occupies positions `10k … 10k+9`), the
segmenter seals it as phrase `k` whose `start_time` and `end_time` are
still the empty string, and `writeSRT` emits its time-range line as
`" --> "` with empty time fields. -/
theorem aligned_punct_run_gives_empty_times (items : List TItem) (k : Nat)
    (hlen : 10 * k + 10 ≤ items.length)
    (hpunct : ∀ it ∈ (items.drop (10 * k)).take 10, it.type = "punctuation") :
    ∃ p, (getPhrasesFromTranscript items).get? k = some p ∧
      p.start_time = "" ∧ p.end_time = "" ∧
      p.start_time ++ " --> " ++ p.end_time = " --> " ∧
      " --> " ∈ writeSRTlines (getPhrasesFromTranscript items) := by
  have hget : (getPhrasesFromTranscript items).get? k
      = some (chunkPhrase ((items.drop (10 * k)).take 10)) := by
    rw [getPhrases_eq_chunks, List.get?_map, exactChunks,
      exactChunksAux_get items.length items k le_rfl hlen]
    rfl
  have htimes := chunkPhrase_punct _ hpunct
  refine ⟨chunkPhrase ((items.drop (10 * k)).take 10), hget, htimes.1, htimes.2, ?_, ?_⟩
  · rw [htimes.1, htimes.2]
    decide
  · have hmem : chunkPhrase ((items.drop (10 * k)).take 10) ∈ getPhrasesFromTranscript items :=
      List.get?_mem hget
    have := timeline_mem_writeSRTlinesFrom (getPhrasesFromTranscript items) 1 _ hmem
    rw [htimes.1, htimes.2] at this
    exact this

theorem aligned_punct_run_gives_empty_times_witness :
    ∃ p, (getPhrasesFromTranscript (List.replicate 10 ⟨"punctuation", 0, 0, ","⟩)).get? 0 = some p ∧
      p.start_time = "" ∧ p.end_time = "" ∧
      p.start_time ++ " --> " ++ p.end_time = " --> " ∧
      " --> " ∈ writeSRTlines (getPhrasesFromTranscript (List.replicate 10 ⟨"punctuation", 0, 0, ","⟩)) :=
  aligned_punct_run_gives_empty_times (List.replicate 10 ⟨"punctuation", 0, 0, ","⟩) 0
    (by rw [List.length_replicate])
    (by
      intro it hit
      simp only [Nat.mul_zero, List.drop_zero] at hit
      have hmem := List.mem_of_mem_take hit
      rw [List.eq_of_mem_replicate hmem])

/-- Claim C9 counterexample: `sampleStream` (one pronunciation token,
then ten punctuation tokens) contains a run of ten consecutive
punctuation tokens at positions 1–10, but the segmenter does not seal
that run as a phrase with empty time fields: the only emitted phrase
starts at the pronunciation token and its `start_time` is
`"00:00:00,000"`, not the empty string. -/
theorem punct_run_not_sealed :
    (∀ it ∈ (sampleStream.drop 1).take 10, it.type = "punctuation") ∧
    ¬ ∃ p, p ∈ getPhrasesFromTranscript sampleStream ∧
      p.start_time = "" ∧ p.end_time = "" := by
  constructor
  · intro it hit
    rw [show (sampleStream.drop 1).take 10
      = List.replicate 10 ⟨"punctuation", 0, 0, ","⟩ from rfl] at hit
    rw [List.eq_of_mem_replicate hit]
  · rintro ⟨p, hp, hs, _⟩
    have hch : exactChunks sampleStream = [sampleStream.take 10] := by
      rw [exactChunks, show sampleStream.length = 11 from rfl,
        show (11 : Nat) = 10 + 1 from rfl, exactChunksAux,
        if_pos (by rw [show sampleStream.length = 11 from rfl]; omega)]
      rw [show sampleStream.drop 10 = [⟨"punctuation", 0, 0, ","⟩] from rfl,
        show (10 : Nat) = 9 + 1 from rfl, exactChunksAux, if_neg (by simp)]
    have hp' : p = chunkPhrase (sampleStream.take 10) := by
      rw [getPhrases_eq_chunks, hch] at hp
      simpa using hp
    have hc0 : sampleStream.take 10
        = (⟨"pronunciation", 0, 1, "hi"⟩ : TItem) ::
            List.replicate 9 ⟨"punctuation", 0, 0, ","⟩ := rfl
    have hstart : (chunkPhrase (sampleStream.take 10)).start_time = getTimeCode 0 := by
      rw [hc0, chunkPhrase, List.foldl_cons]
      rw [show chunkAccum (newPhrase, true) ⟨"pronunciation", 0, 1, "hi"⟩
        = (⟨getTimeCode 0, "", ["hi"]⟩, false) from rfl]
      exact (foldl_chunkAccum_punct (List.replicate 9 ⟨"punctuation", 0, 0, ","⟩)
        (⟨getTimeCode 0, "", ["hi"]⟩, false)
        (by intro it hit; rw [List.eq_of_mem_replicate hit]; decide)).1
    rw [hp', hstart, getTimeCode_zero] at hs
    exact absurd hs (by decide)

/-!  Claim C7: the SRT-to-SSML duration attribute. -/

lemma buildCues_mem :
    ∀ (ls : List String) (pad : ℚ) (cues : List (String × String)),
    buildCues pad ls = some cues → ∀ du t, (du, t) ∈ cues →
    ∃ l, l ∈ ls ∧ ∃ t0 t2 qs qe,
      (pySplit l.data).get? 0 = some t0 ∧ (pySplit l.data).get? 2 = some t2 ∧
      parseTimeCode ⟨t0⟩ = some qs ∧ parseTimeCode ⟨t2⟩ = some qe ∧
      du = fmt2 ((qe - qs) * pad) := by
  intro ls
  induction ls with
  | nil =>
    intro pad cues h du t hmem
    rw [buildCues] at h
    obtain rfl : ([] : List (String × String)) = cues := Option.some.inj h
    simp at hmem
  | cons l rest ih =>
    intro pad cues h du t hmem
    rw [buildCues] at h
    obtain ⟨tail, htail, hbody⟩ := Option.bind_eq_some.mp h
    by_cases harrow : containsSeq arrowChars l.data
    · rw [if_pos harrow] at hbody
      obtain ⟨t0, hg0, hbody⟩ := Option.bind_eq_some.mp hbody
      obtain ⟨t2, hg2, hbody⟩ := Option.bind_eq_some.mp hbody
      obtain ⟨qs, hp0, hbody⟩ := Option.bind_eq_some.mp hbody
      obtain ⟨qe, hp2, hbody⟩ := Option.bind_eq_some.mp hbody
      obtain ⟨nxt, hh, hbody⟩ := Option.bind_eq_some.mp hbody
      obtain rfl := Option.some.inj hbody
      rcases List.mem_cons.mp hmem with hhead | htl
      · obtain ⟨hdu, -⟩ := Prod.mk.injEq .. ▸ hhead
        exact ⟨l, List.mem_cons_self l rest,
          t0, t2, qs, qe, hg0, hg2, hp0, hp2, hdu⟩
      · obtain ⟨l', hl', rest'⟩ := ih pad tail htail du t htl
        exact ⟨l', List.mem_cons_of_mem l hl', rest'⟩
    · rw [if_neg harrow] at hbody
      obtain rfl := Option.some.inj hbody
      obtain ⟨l', hl', rest'⟩ := ih pad tail htail du t hmem
      exact ⟨l', List.mem_cons_of_mem l hl', rest'⟩

lemma parseTimeCode_1s : parseTimeCode "00:00:01,000" = some 1 := by
  rw [parseTimeCode, show parseFields "00:00:01,000".data = some (0, 0, 1, 0) from by decide,
    Option.map_some']
  norm_num

lemma parseTimeCode_3s : parseTimeCode "00:00:03,000" = some 3 := by
  rw [parseTimeCode, show parseFields "00:00:03,000".data = some (0, 0, 3, 0) from by decide,
    Option.map_some']
  norm_num

lemma fmt2_duration2 : fmt2 (((3 : ℚ) - 1) * 1) = "2.00" := by
  rw [fmt2, show ((3 : ℚ) - 1) * 1 * 100 = 200 from by norm_num,
    show rhe (200 : ℚ) = 200 from by rw [rhe_eq_floor _ (by norm_num)]; norm_num]
  decide

lemma exampleSRT_cues : srtlines3 exampleSRT 1 = some [("2.00", "Hello")] := by
  have h2 : srtlines2 exampleSRT = ["00:00:01,000 --> 00:00:03,000", "Hello"] := by decide
  have hHello : containsSeq arrowChars "Hello".data = false := by decide
  have hT : containsSeq arrowChars "00:00:01,000 --> 00:00:03,000".data = true := by decide
  have hget0 : (pySplit "00:00:01,000 --> 00:00:03,000".data).get? 0
      = some "00:00:01,000".data := by decide
  have hget2 : (pySplit "00:00:01,000 --> 00:00:03,000".data).get? 2
      = some "00:00:03,000".data := by decide
  have hp1 : parseTimeCode ⟨['0', '0', ':', '0', '0', ':', '0', '1', ',', '0', '0', '0']⟩
      = some 1 := parseTimeCode_1s
  have hp3 : parseTimeCode ⟨['0', '0', ':', '0', '0', ':', '0', '3', ',', '0', '0', '0']⟩
      = some 3 := parseTimeCode_3s
  rw [srtlines3, h2, buildCues, buildCues, buildCues]
  simp only [Option.pure_def, Option.bind_eq_bind, Option.some_bind, hHello,
    Bool.false_eq_true, if_false, hT, if_true, hget0, hget2, hp1, hp3,
    List.head?_cons, fmt2_duration2]

lemma exampleSRT_ssml :
    ssmlFromSRT exampleSRT 1
      = some "<speak>\n<prosody amazon:max-duration=\"2.00\">Hello</prosody>\n</speak>" := by
  rw [ssmlFromSRT, exampleSRT_cues, Option.map_some']
  rfl

/-- Claim C7: every duration attribute emitted on the SSML-from-SRT path
equals `(parsed end - parsed start) * timePadFactor` formatted to two
decimal places, and the spec's example cue
(`00:00:01,000 --> 00:00:03,000`, pad factor 1) yields `"2.00"`. -/
theorem ssml_from_srt_duration (lines : List String) (pad : ℚ)
    (cues : List (String × String)) (h : srtlines3 lines pad = some cues) :
    (∀ du t, (du, t) ∈ cues → ∃ l, l ∈ srtlines2 lines ∧ ∃ t0 t2 qs qe,
      (pySplit l.data).get? 0 = some t0 ∧ (pySplit l.data).get? 2 = some t2 ∧
      parseTimeCode ⟨t0⟩ = some qs ∧ parseTimeCode ⟨t2⟩ = some qe ∧
      du = fmt2 ((qe - qs) * pad)) ∧
    ssmlFromSRT exampleSRT 1
      = some "<speak>\n<prosody amazon:max-duration=\"2.00\">Hello</prosody>\n</speak>" :=
  ⟨buildCues_mem (srtlines2 lines) pad cues h, exampleSRT_ssml⟩

theorem ssml_from_srt_duration_witness :
    (∀ du t, (du, t) ∈ [("2.00", "Hello")] → ∃ l, l ∈ srtlines2 exampleSRT ∧ ∃ t0 t2 qs qe,
      (pySplit l.data).get? 0 = some t0 ∧ (pySplit l.data).get? 2 = some t2 ∧
      parseTimeCode ⟨t0⟩ = some qs ∧ parseTimeCode ⟨t2⟩ = some qe ∧
      du = fmt2 ((qe - qs) * 1)) ∧
    ssmlFromSRT exampleSRT 1
      = some "<speak>\n<prosody amazon:max-duration=\"2.00\">Hello</prosody>\n</speak>" :=
  ssml_from_srt_duration exampleSRT 1 [("2.00", "Hello")] exampleSRT_cues

/-!  Claim C8: string-processing lemmas for the SRT round trip. -/

lemma dropWhile_ws_eq_self (l : List Char)
    (h : ∀ c, l.head? = some c → c.isWhitespace = false) :
    l.dropWhile Char.isWhitespace = l := by
  cases l with
  | nil => rfl
  | cons c cs =>
    have hc : c.isWhitespace = false := h c rfl
    rw [List.dropWhile_cons, if_neg (by rw [hc]; simp)]

lemma pyStrip_eq_self (s : String)
    (h1 : ∀ c, s.data.head? = some c → c.isWhitespace = false)
    (h2 : ∀ c, s.data.reverse.head? = some c → c.isWhitespace = false) :
    pyStrip s = s := by
  rw [pyStrip, dropWhile_ws_eq_self s.data h1, dropWhile_ws_eq_self s.data.reverse h2,
    List.reverse_reverse]

lemma pyStrip_eq_self_of_all (s : String)
    (h : ∀ c ∈ s.data, c.isWhitespace = false) : pyStrip s = s := by
  refine pyStrip_eq_self s (fun c hc => h c ?_) (fun c hc => h c ?_)
  · exact List.mem_of_mem_head? (by rw [hc]; simp)
  · exact List.mem_reverse.mp (List.mem_of_mem_head? (by rw [hc]; simp))

lemma digit_not_ws (c : Char) (h : c.isDigit = true) : c.isWhitespace = false := by
  cases hw : c.isWhitespace with
  | false => rfl
  | true =>
    simp [Char.isWhitespace] at hw
    rcases hw with ((rfl | rfl) | rfl) | rfl <;> simp at h

lemma natReprAux_digits : ∀ (f n : Nat), ∀ c ∈ natReprAux f n, c.isDigit = true := by
  intro f
  induction f with
  | zero => intro n c hc; simp [natReprAux] at hc
  | succ f ih =>
    intro n c hc
    cases n with
    | zero => rw [natReprAux_zero] at hc; simp at hc
    | succ m =>
      rw [natReprAux_succ f (m + 1) (Nat.succ_ne_zero m)] at hc
      rcases List.mem_append.mp hc with h1 | h2
      · exact ih _ c h1
      · rw [List.mem_singleton.mp h2]
        exact digChar_isDigit _ (Nat.mod_lt _ (by omega))

lemma natRepr_digits (n : Nat) : ∀ c ∈ natRepr n, c.isDigit = true := by
  intro c hc
  rw [natRepr] at hc
  by_cases h0 : n = 0
  · rw [if_pos h0] at hc; rw [List.mem_singleton.mp hc]; decide
  · rw [if_neg h0] at hc; exact natReprAux_digits (n + 1) n c hc

lemma natRepr_ne_nil (n : Nat) : natRepr n ≠ [] := by
  rw [natRepr]
  by_cases h0 : n = 0
  · rw [if_pos h0]; simp
  · rw [if_neg h0]
    obtain ⟨m, rfl⟩ : ∃ m, n = m + 1 := ⟨n - 1, by omega⟩
    rw [natReprAux_succ (m + 1) (m + 1) (Nat.succ_ne_zero m)]
    simp

lemma pyIsNumeric_pyStr (n : Nat) : pyIsNumeric (pyStr n) = true := by
  rw [pyIsNumeric, pyStr]
  rw [show (String.mk (natRepr n)).data = natRepr n from rfl]
  rw [show (natRepr n).isEmpty = false from by
    rw [List.isEmpty_eq_false]; exact natRepr_ne_nil n]
  rw [show (natRepr n).all Char.isDigit = true from by
    rw [List.all_eq_true]; exact natRepr_digits n]
  rfl

lemma timeline_data (s e : String) :
    (s ++ " --> " ++ e).data
      = s.data ++ ' ' :: '-' :: '-' :: '>' :: ' ' :: e.data := by
  rw [String.data_append, String.data_append]
  rw [show (" --> ").data = [' ', '-', '-', '>', ' '] from rfl]
  rw [List.append_assoc]
  rfl

lemma pySplitAux_nonws :
    ∀ (w cs acc : List Char), (∀ c ∈ w, c.isWhitespace = false) →
    pySplitAux (w ++ cs) acc = pySplitAux cs (w.reverse ++ acc) := by
  intro w
  induction w with
  | nil => intro cs acc _; simp
  | cons c w ih =>
    intro cs acc hall
    rw [List.cons_append, pySplitAux,
      if_neg (by rw [hall c (List.mem_cons_self c w)]; simp)]
    rw [ih cs (c :: acc) (fun d hd => hall d (List.mem_cons_of_mem c hd))]
    rw [List.reverse_cons, List.append_assoc]
    rfl

lemma pySplitAux_space (cs acc : List Char) :
    pySplitAux (' ' :: cs) acc =
      if acc.isEmpty then pySplitAux cs [] else acc.reverse :: pySplitAux cs [] := by
  rw [pySplitAux, if_pos (by decide)]

lemma pySplit_timeline (s e : List Char) (hs1 : s ≠ [])
    (hsw : ∀ c ∈ s, c.isWhitespace = false) (he1 : e ≠ [])
    (hew : ∀ c ∈ e, c.isWhitespace = false) :
    pySplit (s ++ ' ' :: '-' :: '-' :: '>' :: ' ' :: e) = [s, ['-', '-', '>'], e] := by
  have hfin : pySplitAux e [] = [e] := by
    conv_lhs => rw [← List.append_nil e]
    rw [pySplitAux_nonws e [] [] hew, List.append_nil, pySplitAux,
      if_neg (by simp [List.isEmpty_iff, List.reverse_eq_nil_iff]; exact he1),
      List.reverse_reverse]
  rw [pySplit, pySplitAux_nonws s _ [] hsw, List.append_nil, pySplitAux_space,
    if_neg (by simp [List.isEmpty_iff, List.reverse_eq_nil_iff]; exact hs1),
    List.reverse_reverse]
  rw [show ('-' :: '-' :: '>' :: ' ' :: e) = ['-', '-', '>'] ++ ' ' :: e from rfl]
  rw [pySplitAux_nonws ['-', '-', '>'] _ [] (by decide), pySplitAux_space,
    if_neg (by decide),
    show ((['-', '-', '>'] : List Char).reverse ++ ([] : List Char)).reverse
      = ['-', '-', '>'] from by decide]
  rw [hfin]

lemma containsSeq_append :
    ∀ (a l pat : List Char), containsSeq pat l = true → containsSeq pat (a ++ l) = true := by
  intro a
  induction a with
  | nil => intro l pat h; exact h
  | cons c a ih =>
    intro l pat h
    rw [List.cons_append, containsSeq, ih l pat h, Bool.or_true]

lemma containsSeq_here (pat rest : List Char) (hne : pat ≠ []) :
    containsSeq pat (pat ++ rest) = true := by
  cases pat with
  | nil => exact absurd rfl hne
  | cons c p =>
    rw [List.cons_append, containsSeq,
      show (c :: p).isPrefixOf (c :: (p ++ rest)) = true from by
        rw [List.isPrefixOf_iff_prefix]
        exact ⟨rest, by simp⟩,
      Bool.true_or]

lemma timeline_contains_arrow (s e : List Char) :
    containsSeq arrowChars (s ++ ' ' :: '-' :: '-' :: '>' :: ' ' :: e) = true := by
  have h1 : containsSeq arrowChars ('-' :: '-' :: '>' :: ' ' :: e) = true := by
    rw [show ('-' :: '-' :: '>' :: ' ' :: e) = arrowChars ++ ' ' :: e from rfl]
    exact containsSeq_here arrowChars (' ' :: e) (by decide)
  have h2 := containsSeq_append (s ++ [' ']) _ _ h1
  rw [List.append_assoc] at h2
  simpa using h2

lemma pyIsNumeric_of_data_space (l : String) (cs1 cs2 : List Char)
    (h : l.data = cs1 ++ ' ' :: cs2) : pyIsNumeric l = false := by
  rw [pyIsNumeric, h]
  rw [show (cs1 ++ ' ' :: cs2).all Char.isDigit = false from by
    rw [List.all_eq_false]
    exact ⟨' ', by simp, by decide⟩]
  rw [Bool.and_false]

lemma keepLine_eval (l : String) (h1 : pyIsNumeric l = false) (h2 : l ≠ "") :
    keepLine l = true := by
  rw [keepLine, h1, show (l == "") = false from by
    rw [beq_eq_false_iff_ne]; exact h2]
  rfl

lemma keepLine_numeric (l : String) (h : pyIsNumeric l = true) : keepLine l = false := by
  rw [keepLine, h]
  rfl

lemma keepLine_empty : keepLine "" = false := by decide

lemma c8_aux (pad : ℚ) :
    ∀ (phrases : List Phrase) (x : Nat), (∀ p ∈ phrases, phraseOK p) →
    ∃ cues, buildCues pad (srtlines2 (writeSRTlinesFrom x phrases)) = some cues ∧
      phraseDurations phrases pad = some (cues.map Prod.fst) := by
  intro phrases
  induction phrases with
  | nil => intro x _; exact ⟨[], rfl, rfl⟩
  | cons p rest ih =>
    intro x hok
    obtain ⟨⟨qs, hqs⟩, ⟨qe, hqe⟩, hs1, hsw, he1, hew, hstrip, hne, hnum, harr⟩ :=
      hok p (List.mem_cons_self p rest)
    obtain ⟨cuesR, hcr, hdr⟩ := ih (x + 1) (fun q hq => hok q (List.mem_cons_of_mem p hq))
    have hs1' : p.start_time.data ≠ [] := hs1
    have hTdata := timeline_data p.start_time p.end_time
    have hT1 : pyStrip (p.start_time ++ " --> " ++ p.end_time)
        = p.start_time ++ " --> " ++ p.end_time := by
      apply pyStrip_eq_self
      · intro c hc
        rw [hTdata, List.head?_append_of_ne_nil _ hs1'] at hc
        exact hsw c (List.mem_of_mem_head? (by rw [hc]; simp))
      · intro c hc
        rw [List.head?_reverse, hTdata,
          show p.start_time.data ++ ' ' :: '-' :: '-' :: '>' :: ' ' :: p.end_time.data
            = (p.start_time.data ++ [' ', '-', '-', '>', ' ']) ++ p.end_time.data from by
              simp,
          List.getLast?_append_of_ne_nil _ he1] at hc
        exact hew c (List.mem_of_mem_getLast? (by rw [hc]; simp))
    have hTnum : pyIsNumeric (p.start_time ++ " --> " ++ p.end_time) = false :=
      pyIsNumeric_of_data_space _ p.start_time.data
        ('-' :: '-' :: '>' :: ' ' :: p.end_time.data) hTdata
    have hTne : (p.start_time ++ " --> " ++ p.end_time) ≠ "" := by
      intro h
      have h2 := congrArg String.data h
      rw [hTdata] at h2
      simp at h2
    have hkT : keepLine (p.start_time ++ " --> " ++ p.end_time) = true :=
      keepLine_eval _ hTnum hTne
    have hkText : keepLine (getPhraseText p) = true := keepLine_eval _ hnum hne
    have hl1 : pyStrip (pyStr x) = pyStr x :=
      pyStrip_eq_self_of_all _ (fun c hc => digit_not_ws c (natRepr_digits x c hc))
    have hlines : srtlines2 (writeSRTlinesFrom x (p :: rest))
        = (p.start_time ++ " --> " ++ p.end_time) :: getPhraseText p ::
            srtlines2 (writeSRTlinesFrom (x + 1) rest) := by
      rw [writeSRTlinesFrom, srtlines2, srtlines2, List.map_cons, List.map_cons,
        List.map_cons, List.map_cons, List.filter_cons, List.filter_cons,
        List.filter_cons, List.filter_cons]
      rw [hl1, keepLine_numeric _ (pyIsNumeric_pyStr x), hT1, hkT, hstrip, hkText,
        show pyStrip "" = "" from rfl, keepLine_empty]
      simp
    have hsp : pySplit (p.start_time ++ " --> " ++ p.end_time).data
        = [p.start_time.data, ['-', '-', '>'], p.end_time.data] := by
      rw [hTdata]
      exact pySplit_timeline _ _ hs1' hsw he1 hew
    refine ⟨(fmt2 ((qe - qs) * pad), getPhraseText p) :: cuesR, ?_, ?_⟩
    · rw [hlines, buildCues, buildCues, hcr]
      simp only [Option.pure_def, Option.bind_eq_bind, Option.some_bind]
      rw [if_neg (by rw [harr]; simp)]
      simp only [Option.some_bind]
      rw [if_pos (by rw [hTdata]; exact timeline_contains_arrow _ _)]
      rw [hsp,
        show ([p.start_time.data, ['-', '-', '>'], p.end_time.data].get? 0)
          = some p.start_time.data from rfl,
        show ([p.start_time.data, ['-', '-', '>'], p.end_time.data].get? 2)
          = some p.end_time.data from rfl]
      simp only [Option.some_bind]
      rw [show (⟨p.start_time.data⟩ : String) = p.start_time from rfl,
        show (⟨p.end_time.data⟩ : String) = p.end_time from rfl, hqs, hqe]
      simp only [Option.some_bind, List.head?_cons]
    · rw [phraseDurations, List.mapM_cons]
      rw [show List.mapM (fun p => do
          let qs ← parseTimeCode p.start_time
          let qe ← parseTimeCode p.end_time
          some (fmt2 ((qe - qs) * pad))) rest = phraseDurations rest pad from rfl, hdr]
      rw [hqs, hqe]
      simp only [Option.pure_def, Option.bind_eq_bind, Option.some_bind, List.map_cons]

/-- Claim C8: on well-formed inputs the SSML document derived from the
SRT file that `writeSRT` emits carries exactly the same `max-duration`
attribute values as the SSML document derived directly from the same
phrases by `writeSSML`. -/
theorem srt_and_transcript_ssml_durations_agree (phrases : List Phrase) (pad : ℚ)
    (hok : ∀ p ∈ phrases, phraseOK p) :
    srtDurations (writeSRTlines phrases) pad = phraseDurations phrases pad := by
  obtain ⟨cues, h1, h2⟩ := c8_aux pad phrases 1 hok
  rw [srtDurations, writeSRTlines, srtlines3, h1, Option.map_some', h2]

theorem srt_and_transcript_ssml_durations_agree_witness :
    srtDurations (writeSRTlines [⟨"00:00:01,000", "00:00:03,000", ["Hello"]⟩]) 1
      = phraseDurations [⟨"00:00:01,000", "00:00:03,000", ["Hello"]⟩] 1 :=
  srt_and_transcript_ssml_durations_agree _ 1 (by
    intro p hp
    rw [List.mem_singleton.mp hp]
    exact ⟨⟨1, parseTimeCode_1s⟩, ⟨3, parseTimeCode_3s⟩, by decide, by decide,
      by decide, by decide, by decide, by decide, by decide, by decide⟩)

section SanityChecks

example : natRepr 0 = ['0'] := by decide
example : natRepr 61 = ['6', '1'] := by decide
example : pad0 2 7 = "07" := by decide
example : parseFields "00:00:01,500".data = some (0, 0, 1, 500000) := by decide
example : parseFields "00:00:01.500".data = none := by decide
example : parseTimeCode "00:00:01,500" = some (3/2) := by
  have h : parseFields "00:00:01,500".data = some (0, 0, 1, 500000) := by decide
  rw [parseTimeCode, h]
  norm_num

end SanityChecks
